import Mathlib

/-! # tg generator: declaration lookup, nested field walk and swagger paths

A shallow embedding of `pkg/generator/utils.go`: the type lookup
(`parseType`, `searchType`, `trimLocalPkg`, `getModName`), the nested field
walk (`nestedType`), the argument conventions (`isContextFirst`,
`isErrorLast`) and `removeSkippedFields`; and of `pkg/generator/swagger.go`:
`fillErrors` and the part of `render` that fills the paths table.  Theorems
about them follow the definitions.

Modelling conventions.

* A Go `types.Type` interface value is a `GoType`; the nil interface value is
  `none` of `Option GoType`.  Values built by the go-astra reader have non-nil
  `Next` and `Import`, and the embedding covers those values.
* The file system and the go-astra reader are the environment: `World` gives,
  for the path handed to `filepath.Walk`, the visits the walk makes in order,
  each `.go` file with the outcome of `astra.ParseFile`.
* Declarations of the generator that the files at hand use and do not hold
  (`method`, `service`, `swPath`, `statusText`, the operation values) are
  parameters of the functions that read them.
* Go strings are `String` (valid UTF-8 text, split and compared at ASCII
  characters only); the standard functions used by the source
  (`strings.Split`, `strings.Join`, `strings.HasSuffix`, `strings.TrimSpace`,
  `path.Join`) are defined on character lists so that they evaluate.
-/

namespace Tg

/-! ## Go standard library functions used by the source -/

/-- Go `strings.Split(s, sep)` for a one-character separator, on characters. -/
def splitChars (sep : Char) : List Char → List (List Char)
  | [] => [[]]
  | c :: cs =>
    if c = sep then [] :: splitChars sep cs
    else
      match splitChars sep cs with
      | [] => [[c]]
      | seg :: segs => (c :: seg) :: segs

/-- Go `strings.Split(s, sep)` for a one-character separator. -/
def strSplit (s : String) (sep : Char) : List String :=
  (splitChars sep s.data).map String.mk

/-- Go `strings.Join(elems, sep)`, on characters. -/
def joinChars (sep : List Char) : List (List Char) → List Char
  | [] => []
  | [x] => x
  | x :: y :: rest => x ++ sep ++ joinChars sep (y :: rest)

/-- Go `strings.Join(elems, sep)`. -/
def strJoin (elems : List String) (sep : String) : String :=
  String.mk (joinChars sep.data (elems.map String.data))

/-- Go `strings.HasSuffix(s, suffix)`. -/
def hasSuffix (s suffix : String) : Bool :=
  suffix.data.reverse.isPrefixOf s.data.reverse

/-- Go `unicode.IsSpace`. -/
def isSpace (c : Char) : Bool :=
  let n := c.toNat
  n = 0x09 || n = 0x0A || n = 0x0B || n = 0x0C || n = 0x0D || n = 0x20 ||
  n = 0x85 || n = 0xA0 || n = 0x1680 || (0x2000 ≤ n && n ≤ 0x200A) ||
  n = 0x2028 || n = 0x2029 || n = 0x202F || n = 0x205F || n = 0x3000

/-- Go `strings.TrimSpace(s)`. -/
def trimSpace (s : String) : String :=
  String.mk ((s.data.dropWhile isSpace).reverse.dropWhile isSpace).reverse

/-- Go `strings.Trim(s, cutset)` for a one-character cutset. -/
def trimChar (s : String) (c : Char) : String :=
  String.mk ((s.data.dropWhile (· == c)).reverse.dropWhile (· == c)).reverse

/-- One step of Go `path.Clean` on path elements: `stack` holds the elements
kept so far, last one first. -/
def cleanStep (rooted : Bool) (stack : List (List Char)) (seg : List Char) :
    List (List Char) :=
  if seg = [] ∨ seg = ['.'] then stack
  else if seg = ['.', '.'] then
    match stack with
    | [] => if rooted then [] else [seg]
    | top :: below => if top = ['.', '.'] then seg :: stack else below
  else seg :: stack

/-- Go `path.Clean`, on characters. -/
def cleanChars (p : List Char) : List Char :=
  if p = [] then ['.']
  else
    let rooted := p.head? = some '/'
    let kept := ((splitChars '/' p).foldl (cleanStep rooted) []).reverse
    let body := joinChars ['/'] kept
    if rooted then '/' :: body
    else if body = [] then ['.'] else body

/-- Go `path.Join(elem...)`: the non-empty elements joined by a slash, then
cleaned; the empty string when every element is empty. -/
def pathJoin (elem : List String) : String :=
  match (elem.map String.data).filter (· ≠ []) with
  | [] => ""
  | parts => String.mk (cleanChars (joinChars ['/'] parts))

/-! ## go-astra declarations -/

/-- Record `types.Import`: the name and package path of an import. -/
structure Import where
  Name : String
  Package : String

/-- Record `types.Variable`: a named value with its type. -/
structure Variable (τ : Type) where
  Name : String
  type : τ

/-- Record `types.StructField`: a variable with its struct tags. -/
structure StructField (τ : Type) where
  Name : String
  type : τ
  Tags : List (String × List String)

/-- Record `types.Function`: a method signature. -/
structure Function (τ : Type) where
  Name : String
  Args : List (Variable τ)
  Results : List (Variable τ)

/-- Record `types.Interface`. -/
structure Interface (τ : Type) where
  Name : String
  Methods : List (Function τ)

/-- Record `types.Struct`. -/
structure Struct (τ : Type) where
  Name : String
  Fields : List (StructField τ)

/-- The implementations of the interface `types.Type` that `nestedType`
switches on. -/
inductive GoType where
  | TImport (imp : Import) (Next : GoType)
  | TName (TypeName : String)
  | Struct (s : Struct GoType)
  | TArray (ArrayLen : Nat) (IsSlice : Bool) (Next : GoType)
  | TMap (Key : GoType) (Value : GoType)
  | TPointer (NumberOfPointers : Nat) (Next : GoType)
  | TInterface (iface : Interface GoType)
  | TEllipsis (Next : GoType)

/-- Record `types.FileType`: a named type declaration `type Name Type`. -/
structure FileType where
  Name : String
  type : GoType

/-- Record `types.File`, with the declaration lists `parseType` scans. -/
structure File where
  Interfaces : List (Interface GoType)
  Types : List FileType
  Structures : List (Struct GoType)

/-! ## The environment -/

/-- One call of the callback that `parseType` hands to `filepath.Walk`. -/
inductive Visit where
  /-- The walk reports an error for the entry (`err != nil`), as it does
  for a root directory that does not exist. -/
  | failed
  /-- The entry is a directory (`info.IsDir()`). -/
  | dir
  /-- The entry is a file called `name` (`info.Name()`); `parsed` is the
  outcome of `astra.ParseFile` on it, `none` when the file fails to parse. -/
  | file (name : String) (parsed : Option File)

/-- What the code reads from outside: the walk of each directory, the
module mapping `mod.PkgModPath` and the contents of `go.mod` (`none` when
the file cannot be opened). -/
structure World where
  walk : String → List Visit
  PkgModPath : String → String
  goMod : Option String

/-! ## `utils.go` -/

/-- The three loops of the callback over one parsed file: interfaces, then
type declarations, then structures; each stops at its first match. -/
def scanFile (name : String) (srcFile : File) : Option GoType :=
  match srcFile.Interfaces.find? (fun typeInfo => typeInfo.Name == name) with
  | some typeInfo => some (.TInterface typeInfo)
  | none =>
    match srcFile.Types.find? (fun typeInfo => typeInfo.Name == name) with
    | some typeInfo => some typeInfo.type
    | none =>
      match srcFile.Structures.find? (fun structInfo => structInfo.Name == name) with
      | some structInfo => some (.Struct structInfo)
      | none => none

/-- The walk of `parseType`: `retType` is the captured result variable.  A
callback that returns an error ends the walk; one that returns nil, also
after a match, lets it go on to the next entry.  On a parse failure the
callback wraps the error with `relPath` and `name` into `retErr` and then
runs `return err`, which overwrites it; the walk ends either way and no error
value leaves `parseType`, so none is part of the result. -/
def walkFiles (name : String) : List Visit → Option GoType → Option GoType
  | [], retType => retType
  | .failed :: _, retType => retType
  | .dir :: rest, retType => walkFiles name rest retType
  | .file fileName parsed :: rest, retType =>
    if !hasSuffix fileName ".go" then walkFiles name rest retType
    else
      match parsed with
      | none => retType
      | some srcFile =>
        match scanFile name srcFile with
        | some found => walkFiles name rest (some found)
        | none => walkFiles name rest retType

/-- Function `parseType`.  The walk starts at `filepath.Abs(relPath)`, which
the environment resolves: `World.walk` is indexed by `relPath`.  The error
returned by `filepath.Walk` is discarded (`_ = filepath.Walk(...)`), so the
result is the captured `retType` alone. -/
def parseType (W : World) (relPath name : String) : Option GoType :=
  walkFiles name (W.walk relPath) none

/-- Function `getModName`: the second token of the first line of `go.mod`. -/
def getModName (W : World) : String :=
  match W.goMod with
  | none => ""
  | some content =>
    if '\n' ∈ content.data then
      let line := String.mk (content.data.takeWhile (· ≠ '\n') ++ ['\n'])
      let module := trimChar line '\n'
      let moduleTokens := strSplit module ' '
      if moduleTokens.length = 2 then trimSpace (moduleTokens.getD 1 "") else module
    else ""

/-- Function `trimLocalPkg`. -/
def trimLocalPkg (W : World) (pkg : String) : String :=
  let module := getModName W
  if module = "" then pkg
  else
    let moduleTokens := strSplit module '/'
    let pkgTokens := strSplit pkg '/'
    if pkgTokens.length < moduleTokens.length then pkg
    else pathJoin [strJoin (pkgTokens.drop moduleTokens.length) "/"]

/-- Function `searchType`. -/
def searchType (W : World) (pkg name : String) : Option GoType :=
  match parseType W pkg name with
  | some retType => some retType
  | none =>
    match parseType W (W.PkgModPath pkg) name with
    | some retType => some retType
    | none =>
      match parseType W (pathJoin ["./vendor", pkg]) name with
      | some retType => some retType
      | none => parseType W (trimLocalPkg W pkg) name

/-- Function `nestedType`.  The result `none` is the nil value of the named
result `nested`, returned by the bare `return` after the switch, which only
the record case reaches.  `path[1:]` is the tail of the path.  The `default`
case of the switch (`return f`) is for implementations of `types.Type` other
than the eight of `GoType`. -/
def nestedType (W : World) : GoType → String → List String → Option GoType
  | field, _, [] => some field
  | .TImport imp next, _, seg :: rest => nestedType W next imp.Package (seg :: rest)
  | .TName typeName, pkg, _ :: rest =>
    match searchType W pkg typeName with
    | some nextType => nestedType W nextType pkg rest
    | none => some (.TName typeName)
  | .Struct s, pkg, seg :: rest =>
    match s.Fields.find? (fun field => field.Name == seg) with
    | some field => nestedType W field.type pkg rest
    | none => none
  | .TArray n sl next, _, _ :: _ => some (.TArray n sl next)
  | .TMap k v, _, _ :: _ => some (.TMap k v)
  | .TPointer _ next, pkg, _ :: rest => nestedType W next pkg rest
  | .TInterface iface, _, _ :: _ => some (.TInterface iface)
  | .TEllipsis next, _, _ :: _ => some (.TEllipsis next)
termination_by field _ path => (path.length, sizeOf field)

/-- The inner loop of `removeSkippedFields` for the field called `name`: the
flag `add`, cleared at the first skip entry that equals the name once
trimmed. -/
def skipLoop (name : String) : List String → Bool
  | [] => true
  | skip :: rest => if trimSpace skip = name then false else skipLoop name rest

/-- Function `removeSkippedFields`: the outer loop appends to `result` the
fields whose flag `add` is still set. -/
def removeSkippedFields {τ : Type} (fields : List (Variable τ))
    (skipFields : List String) : List (Variable τ) :=
  fields.foldl
    (fun result field => if skipLoop field.Name skipFields then result ++ [field] else result)
    []

/-- Function `types.TypeName` of go-astra (a library outside this
repository): the name of a type, looked for through the wrappers that have a
next type; maps, interfaces and records have none. -/
def TypeName : GoType → Option String
  | .TName typeName => some typeName
  | .TInterface _ => none
  | .TMap _ _ => none
  | .Struct _ => none
  | .TImport _ next => TypeName next
  | .TArray _ _ next => TypeName next
  | .TPointer _ next => TypeName next
  | .TEllipsis next => TypeName next

/-- Function `types.TypeImport` of go-astra (a library outside this
repository): the import of a type, looked for through the wrappers that have
a next type; nil when the chain ends without one. -/
def TypeImport : GoType → Option Import
  | .TImport imp _ => some imp
  | .TName _ => none
  | .TInterface _ => none
  | .TMap _ _ => none
  | .Struct _ => none
  | .TArray _ _ next => TypeImport next
  | .TPointer _ next => TypeImport next
  | .TEllipsis next => TypeImport next

/-- Modelled from the spec: the constant `packageContext`, declared outside
the files at hand; the reserved context type comes from the package
`context`. -/
def packageContext : String := "context"

/-- Function `isContextFirst`. -/
def isContextFirst (fields : List (Variable GoType)) : Bool :=
  match fields with
  | [] => false
  | first :: _ =>
    match TypeName first.type with
    | none => false
    | some name =>
      match TypeImport first.type with
      | none => false
      | some imp => imp.Package == packageContext && name == "Context"

/-- Function `isErrorLast`. -/
def isErrorLast (fields : List (Variable GoType)) : Bool :=
  match fields.getLast? with
  | none => false
  | some last =>
    match TypeName last.type with
    | none => false
    | some name => (TypeImport last.type).isNone && name == "error"

/-- The type left when the leading pointer, array or slice and ellipsis
wrappers of a type are taken off. -/
def stripWrappers : GoType → GoType
  | .TArray _ _ next => stripWrappers next
  | .TPointer _ next => stripWrappers next
  | .TEllipsis next => stripWrappers next
  | t => t

/-! ## `swagger.go` -/

/-- Go `strconv.Atoi`, the value it returns (the caller drops the error):
an optional sign and decimal digits; zero on a syntax error, the nearest
64-bit value on a range error. -/
def atoi (s : String) : Int :=
  let signed : Bool × List Char :=
    match s.data with
    | '-' :: rest => (true, rest)
    | '+' :: rest => (false, rest)
    | cs => (false, cs)
  let digits := signed.2
  if digits = [] ∨ ¬ digits.all Char.isDigit then 0
  else
    let n : Nat := digits.foldl (fun acc ch => 10 * acc + (ch.toNat - '0'.toNat)) 0
    if signed.1 then (if n > 2 ^ 63 then -((2 : Int) ^ 63) else -(n : Int))
    else (if n ≥ 2 ^ 63 then (2 : Int) ^ 63 - 1 else (n : Int))

/-- A Go map with string keys: the value stored under each key, if any. -/
abbrev StrMap (β : Type) : Type := String → Option β

/-- The assignment `m[k] = v` on a Go map. -/
def StrMap.set {β : Type} (m : StrMap β) (k : String) (v : β) : StrMap β :=
  fun x => if x = k then some v else m x

/-- The empty Go map, also the zero value of a record of optional fields. -/
def StrMap.empty {β : Type} : StrMap β := fun _ => none

/-- The constant `contentJSON`. -/
def contentJSON : String := "application/json"

/-- Record `swResponse` as `fillErrors` fills it: the description and the
content map from media type to schema (the nil map is the empty list). -/
structure SwResponse (Schema : Type) where
  Description : String
  Content : List (String × Schema)

/-- What `fillErrors` reads from outside the files at hand: the table
`statusText`, and the methods `doc.searchType` and `doc.walkVariable` (its
result only; what it records in the schema registry is not modelled). -/
structure ErrorEnv (Schema : Type) where
  statusText : Int → Option String
  searchType : String → String → Option GoType
  walkVariable : String → String → GoType → Schema

/-- The value of `content` that both branches of `fillErrors` build from a tag
value of the form `pkgPath:typeName`. -/
def errorContent {Schema : Type} (env : ErrorEnv Schema) (value : String) :
    List (String × Schema) :=
  if value ≠ "" then
    match strSplit value ':' with
    | [pkgPath, typeName] =>
      match env.searchType pkgPath typeName with
      | some retType => [(contentJSON, env.walkVariable typeName pkgPath retType)]
      | none => []
    | _ => []
  else []

/-- One iteration of the loop of `fillErrors`, for the tag `key`, `value`. -/
def fillErrorsTag {Schema : Type} (env : ErrorEnv Schema)
    (responses : StrMap (SwResponse Schema)) (tag : String × String) :
    StrMap (SwResponse Schema) :=
  let key := trimSpace tag.1
  let value := trimSpace tag.2
  let code := atoi key
  match env.statusText code with
  | some text =>
    if value = "skip" then responses
    else responses.set key ⟨text, errorContent env value⟩
  | none =>
    if key = "defaultError" then
      responses.set "default" ⟨"Generic error", errorContent env value⟩
    else responses

/-- Function `swagger.fillErrors`: the loop over the tags, in the order in
which the map is ranged over. -/
def fillErrors {Schema : Type} (env : ErrorEnv Schema)
    (responses : StrMap (SwResponse Schema)) (tags : List (String × String)) :
    StrMap (SwResponse Schema) :=
  tags.foldl (fillErrorsTag env) responses

/-- What `render` reads of a method for the paths table: whether its tags
contain `tagMethodHTTP` and the results of `jsonrpcPath()`, `httpPath()` and
`httpMethod()`. -/
structure Method where
  Name : String
  tagMethodHTTP : Bool
  jsonrpcPath : String
  httpPath : String
  httpMethod : String

/-- What `render` reads of a service for the paths table: whether its tags
contain `tagServerJsonRPC` and `tagServerHTTP`, and its methods. -/
structure Service where
  Name : String
  tagServerJsonRPC : Bool
  tagServerHTTP : Bool
  methods : List Method

/-- Record `swPath`: one optional operation per verb field, by the name of the
field. -/
abbrev SwPath (Op : Type) : Type := StrMap Op

/-- What the paths loop of `render` reads from outside the files at hand: the
services in the order of `doc.serviceKeys()`, the operation values built for
a method (`postMethod` and `httpMethod`, the latter after `fillErrors` and
`clearContent`), the field name `utils.ToCamel(strings.ToLower(verb))` and the
names of the operation fields of `swPath`. -/
structure SwaggerDoc (Op : Type) where
  services : List Service
  postOperation : Service → Method → Op
  httpOperation : Service → Method → Op
  verbField : String → String
  swPathFields : List String

/-- The body of the method loop of `render` that fills `swaggerDoc.Paths`.
The result is `none` when `reflect` panics because `swPath` has no operation
field of the name computed from the verb. -/
def renderMethod {Op : Type} (doc : SwaggerDoc Op) (service : Service)
    (paths : StrMap (SwPath Op)) (method : Method) : Option (StrMap (SwPath Op)) :=
  if service.tagServerJsonRPC && !method.tagMethodHTTP then
    some (paths.set method.jsonrpcPath
      ((StrMap.empty : SwPath Op).set "Post" (doc.postOperation service method)))
  else if service.tagServerHTTP && method.tagMethodHTTP then
    let found := paths method.jsonrpcPath
    let httpValue : SwPath Op := found.getD StrMap.empty
    let paths1 := if found.isNone then paths.set method.httpPath StrMap.empty else paths
    let field := doc.verbField method.httpMethod
    if field ∈ doc.swPathFields then
      some (paths1.set method.httpPath
        (httpValue.set field (doc.httpOperation service method)))
    else none
  else some paths

/-- The method loop of `render` for one service. -/
def renderMethods {Op : Type} (doc : SwaggerDoc Op) (service : Service) :
    List Method → StrMap (SwPath Op) → Option (StrMap (SwPath Op))
  | [], paths => some paths
  | method :: rest, paths =>
    match renderMethod doc service paths method with
    | none => none
    | some next => renderMethods doc service rest next

/-- The service loop of `render`. -/
def renderServices {Op : Type} (doc : SwaggerDoc Op) :
    List Service → StrMap (SwPath Op) → Option (StrMap (SwPath Op))
  | [], paths => some paths
  | service :: rest, paths =>
    match renderMethods doc service service.methods paths with
    | none => none
    | some next => renderServices doc rest next

/-- The paths table `swaggerDoc.Paths` that `render` builds before it
marshals the document. -/
def renderPaths {Op : Type} (doc : SwaggerDoc Op) : Option (StrMap (SwPath Op)) :=
  renderServices doc doc.services StrMap.empty

/-! ## Example values -/

/-- The declaration `type User struct { name string }`. -/
def userStruct : Struct GoType := ⟨"User", [⟨"name", .TName "string", []⟩]⟩

/-- The declaration `type User struct { id int }`. -/
def userStructId : Struct GoType := ⟨"User", [⟨"id", .TName "int", []⟩]⟩

/-- A source file that declares `userStruct` and nothing else. -/
def userFile : File := ⟨[], [], [userStruct]⟩

/-- A source file that declares `userStructId` and nothing else. -/
def userIdFile : File := ⟨[], [], [userStructId]⟩

/-- A source file without declarations. -/
def emptyFile : File := ⟨[], [], []⟩

/-- The module mapping used by the example worlds. -/
def modPath (pkg : String) : String := "/go/pkg/mod/" ++ pkg

/-- A project in which no directory can be walked. -/
def emptyWorld : World := ⟨fun _ => [.failed], modPath, none⟩

/-- A project whose only copy of `acme/models` is the vendored one. -/
def vendorWorld : World :=
  ⟨fun p => if p = "vendor/acme/models" then [.dir, .file "user.go" (some userFile)]
    else [.failed],
   modPath, some "module github.com/acme/app\n"⟩

/-- A project whose package `models` declares `User`. -/
def localWorld : World :=
  ⟨fun p => if p = "models" then [.dir, .file "user.go" (some userFile)] else [.failed],
   modPath, none⟩

/-- A project whose package `models` holds a file that fails to parse; the
module copy of the package declares `User`. -/
def brokenWorld : World :=
  ⟨fun p =>
    if p = "models" then [.dir, .file "user.go" none]
    else if p = "/go/pkg/mod/models" then [.dir, .file "user.go" (some userFile)]
    else [.failed],
   modPath, none⟩

/-- The same project with a file in `models` that parses and declares
nothing. -/
def absentWorld : World :=
  ⟨fun p =>
    if p = "models" then [.dir, .file "user.go" (some emptyFile)]
    else if p = "/go/pkg/mod/models" then [.dir, .file "user.go" (some userFile)]
    else [.failed],
   modPath, none⟩

/-- A project whose package `models` declares `User` in `models/user.go` and
whose subpackage declares another `User` in `models/v2/user.go`; the walk
visits `models`, `models/user.go`, `models/v2`, `models/v2/user.go`. -/
def nestedWorld : World :=
  ⟨fun p =>
    if p = "models" then
      [.dir, .file "user.go" (some userFile), .dir, .file "user.go" (some userIdFile)]
    else [.failed],
   modPath, none⟩

/-- The type `context.Context`. -/
def contextType : GoType := .TImport ⟨"context", "context"⟩ (.TName "Context")

/-- The built-in type `error`. -/
def errorType : GoType := .TName "error"

/-- A project whose `go.mod` names the module `github.com/acme/app`. -/
def moduleWorld : World := ⟨fun _ => [.failed], modPath, some "module github.com/acme/app\n"⟩

/-- An environment of `fillErrors` that knows the status 404 and finds no
type. -/
def errorEnv : ErrorEnv String :=
  ⟨fun code => if code = 404 then some "Not Found" else none, fun _ _ => none,
   fun typeName _ _ => typeName⟩

/-- The field names of a few verbs. -/
def verbFieldOf (verb : String) : String :=
  if verb = "GET" then "Get" else if verb = "POST" then "Post"
  else if verb = "PUT" then "Put" else if verb = "DELETE" then "Delete" else verb

/-- The method `List`: `GET /users`. -/
def listMethod : Method := ⟨"List", true, "/users/list", "/users", "GET"⟩

/-- The method `Create`: `POST /users`. -/
def createMethod : Method := ⟨"Create", true, "/users/create", "/users", "POST"⟩

/-- The method `Ping` without the tag `http-method`. -/
def pingMethod : Method := ⟨"Ping", false, "/users/ping", "/ping", "POST"⟩

/-- A service served over HTTP only, with the methods `List` and `Create`. -/
def usersService : Service := ⟨"Users", false, true, [listMethod, createMethod]⟩

/-- A service served over HTTP only, with the method `Ping`. -/
def pingService : Service := ⟨"Health", false, true, [pingMethod]⟩

/-- A service served over JSON-RPC, with the method `Ping`. -/
def rpcService : Service := ⟨"Health", true, false, [pingMethod]⟩

/-- A document over the given services whose operations are named after
their methods. -/
def docOf (services : List Service) : SwaggerDoc String :=
  ⟨services, fun _ method => "rpc " ++ method.Name, fun _ method => "http " ++ method.Name,
   verbFieldOf, ["Get", "Post", "Put", "Patch", "Delete"]⟩

/-! ## Theorems -/

theorem nestedType_nil (W : World) (field : GoType) (pkg : String) :
    nestedType W field pkg [] = some field := by
  cases field <;> simp [nestedType]

/-- The pointer case of `nestedType` on a non-empty path: the recursion
drops the first segment. -/
theorem nestedType_pointer_cons (W : World) (n : Nat) (t : GoType) (pkg seg : String)
    (rest : List String) :
    nestedType W (.TPointer n t) pkg (seg :: rest) = nestedType W t pkg rest := by
  rw [nestedType]

/-- The name case of `nestedType` on a non-empty path when the declaration is
found: the recursion drops the first segment. -/
theorem nestedType_named_found (W : World) (typeName pkg seg : String)
    (rest : List String) (d : GoType) (hs : searchType W pkg typeName = some d) :
    nestedType W (.TName typeName) pkg (seg :: rest) = nestedType W d pkg rest := by
  rw [nestedType, hs]

/-- The record case of `nestedType` when no field has the name of the first
segment: the result is the nil type. -/
theorem nestedType_struct_no_field (W : World) (s : Struct GoType) (pkg seg : String)
    (rest : List String) (hn : ∀ f ∈ s.Fields, f.Name ≠ seg) :
    nestedType W (.Struct s) pkg (seg :: rest) = none := by
  have hfind : s.Fields.find? (fun field => field.Name == seg) = none := by
    rw [List.find?_eq_none]
    intro f hf
    simpa using hn f hf
  rw [nestedType, hfind]

/-- A walk over directories and files that parse, followed by a `.go` file
that declares the name, returns the declaration of that last file, whatever
the files before it declare. -/
theorem walkFiles_last_file (name fileName : String) (srcFile : File) (found : GoType)
    (hgo : hasSuffix fileName ".go" = true)
    (hscan : scanFile name srcFile = some found) :
    ∀ (before : List Visit) (retType : Option GoType),
      (∀ v ∈ before, v = .dir ∨ ∃ n f, v = .file n (some f)) →
      walkFiles name (before ++ [.file fileName (some srcFile)]) retType = some found
  | [], retType, _ => by simp [walkFiles, hgo, hscan]
  | v :: before, retType, hall => by
    have ih := fun r => walkFiles_last_file name fileName srcFile found hgo hscan before r
      (fun x hx => hall x (List.mem_cons_of_mem v hx))
    rcases hall v (List.mem_cons_self v before) with hv | ⟨n, f, hv⟩
    · subst hv
      simpa [walkFiles] using ih retType
    · subst hv
      simp only [List.cons_append, walkFiles]
      split
      · exact ih retType
      · cases scanFile name f with
        | none => exact ih retType
        | some other => exact ih (some other)

/-- C1: `searchType` returns the result of the first of the four lookups that
matches, tried in the order `parseType(pkg)`, `parseType(PkgModPath(pkg))`,
`parseType("./vendor"/pkg)`, `parseType(trimLocalPkg(pkg))`; it is not-found
exactly when all four miss; and when lookups 1 and 2 miss and lookup 3
matches, the result is the declaration of lookup 3 in every project that has
the same first three directories, whatever the fourth lookup would give. -/
theorem searchType_first_match (W : World) (pkg name : String) :
    (∀ d : GoType, searchType W pkg name = some d ↔
      (parseType W pkg name = some d ∨
       (parseType W pkg name = none ∧
        parseType W (W.PkgModPath pkg) name = some d) ∨
       (parseType W pkg name = none ∧
        parseType W (W.PkgModPath pkg) name = none ∧
        parseType W (pathJoin ["./vendor", pkg]) name = some d) ∨
       (parseType W pkg name = none ∧
        parseType W (W.PkgModPath pkg) name = none ∧
        parseType W (pathJoin ["./vendor", pkg]) name = none ∧
        parseType W (trimLocalPkg W pkg) name = some d))) ∧
    (searchType W pkg name = none ↔
      (parseType W pkg name = none ∧
       parseType W (W.PkgModPath pkg) name = none ∧
       parseType W (pathJoin ["./vendor", pkg]) name = none ∧
       parseType W (trimLocalPkg W pkg) name = none)) ∧
    (∀ d : GoType,
      parseType W pkg name = none →
      parseType W (W.PkgModPath pkg) name = none →
      parseType W (pathJoin ["./vendor", pkg]) name = some d →
      ∀ W2 : World,
        W2.walk pkg = W.walk pkg →
        W2.PkgModPath pkg = W.PkgModPath pkg →
        W2.walk (W.PkgModPath pkg) = W.walk (W.PkgModPath pkg) →
        W2.walk (pathJoin ["./vendor", pkg]) = W.walk (pathJoin ["./vendor", pkg]) →
        searchType W2 pkg name = some d) := by
  refine ⟨?_, ?_, ?_⟩
  · intro d
    unfold searchType
    cases h1 : parseType W pkg name <;>
    cases h2 : parseType W (W.PkgModPath pkg) name <;>
    cases h3 : parseType W (pathJoin ["./vendor", pkg]) name <;> simp
  · unfold searchType
    cases h1 : parseType W pkg name <;>
    cases h2 : parseType W (W.PkgModPath pkg) name <;>
    cases h3 : parseType W (pathJoin ["./vendor", pkg]) name <;> simp
  · intro d h1 h2 h3 W2 e1 e2 e3 e4
    have k1 : parseType W2 pkg name = none := by
      unfold parseType at h1 ⊢; rw [e1]; exact h1
    have k2 : parseType W2 (W2.PkgModPath pkg) name = none := by
      unfold parseType at h2 ⊢; rw [e2, e3]; exact h2
    have k3 : parseType W2 (pathJoin ["./vendor", pkg]) name = some d := by
      unfold parseType at h3 ⊢; rw [e4]; exact h3
    unfold searchType
    rw [k1, k2, k3]

/-- Witness of C1: in `vendorWorld` lookups 1 and 2 of `User` in
`acme/models` miss, lookup 3 finds the vendored declaration, and
`searchType` returns it. -/
theorem searchType_first_match_witness :
    parseType vendorWorld "acme/models" "User" = none ∧
    parseType vendorWorld (vendorWorld.PkgModPath "acme/models") "User" = none ∧
    parseType vendorWorld (pathJoin ["./vendor", "acme/models"]) "User"
      = some (.Struct userStruct) ∧
    searchType vendorWorld "acme/models" "User" = some (.Struct userStruct) :=
  ⟨rfl, rfl, rfl,
   (searchType_first_match vendorWorld "acme/models" "User").2.2 (.Struct userStruct)
     rfl rfl rfl vendorWorld rfl rfl rfl rfl⟩

/-- C2 at the failing input: for the pointer to `User` and the path `name`,
the pointer case drops the segment `name` and `nestedType` returns the record
`User` itself, while on the record `User` the same path gives the type of the
field `name`. -/
theorem nestedType_pointer_drops_segment :
    nestedType emptyWorld (.TPointer 1 (.Struct userStruct)) "models" ["name"]
      = some (.Struct userStruct) ∧
    nestedType emptyWorld (.Struct userStruct) "models" ["name"]
      = some (.TName "string") ∧
    nestedType emptyWorld (.TPointer 1 (.Struct userStruct)) "models" ["name"]
      ≠ nestedType emptyWorld (.Struct userStruct) "models" ["name"] := by
  simp [nestedType, userStruct]

/-- C3 at the failing input: in `localWorld` the name `User` is found in
package `models`, the name case drops the segment `name`, and `nestedType`
returns the located record itself, while on the located record the same path
gives the type of the field `name`. -/
theorem nestedType_named_drops_segment :
    searchType localWorld "models" "User" = some (.Struct userStruct) ∧
    nestedType localWorld (.TName "User") "models" ["name"]
      = some (.Struct userStruct) ∧
    nestedType localWorld (.Struct userStruct) "models" ["name"]
      = some (.TName "string") ∧
    nestedType localWorld (.TName "User") "models" ["name"]
      ≠ nestedType localWorld (.Struct userStruct) "models" ["name"] := by
  have h : searchType localWorld "models" "User" = some (.Struct userStruct) := rfl
  simp [nestedType, h, userStruct]

/-- C4 at the failing input: the record `User` has no field `age`, and
`nestedType` returns the nil type, not the record. -/
theorem nestedType_missing_field_nil :
    nestedType emptyWorld (.Struct userStruct) "models" ["age"] = none := by
  simp [nestedType, userStruct]

/-- C5: for a non-empty path, `nestedType` on an imported type continues on
the wrapped type with the same path and the package of the import. -/
theorem nestedType_import (W : World) (imp : Import) (t : GoType) (pkg : String)
    (path : List String) (hp : path ≠ []) :
    nestedType W (.TImport imp t) pkg path = nestedType W t imp.Package path := by
  cases path with
  | nil => exact absurd rfl hp
  | cons seg rest => rw [nestedType]

/-- Witness of C5: `models.User` seen from package `api` with the path
`name`. -/
theorem nestedType_import_witness :
    nestedType localWorld (.TImport ⟨"models", "models"⟩ (.TName "User")) "api" ["name"]
      = nestedType localWorld (.TName "User") "models" ["name"] :=
  nestedType_import localWorld ⟨"models", "models"⟩ (.TName "User") "api" ["name"]
    (by simp)

/-- C6: for a non-empty path, when `searchType` finds no declaration of a
named type, `nestedType` returns the named type itself. -/
theorem nestedType_named_not_found (W : World) (typeName pkg : String)
    (path : List String) (hp : path ≠ [])
    (hs : searchType W pkg typeName = none) :
    nestedType W (.TName typeName) pkg path = some (.TName typeName) := by
  cases path with
  | nil => exact absurd rfl hp
  | cons seg rest => rw [nestedType, hs]

/-- Witness of C6: `User` cannot be found in a project without readable
directories. -/
theorem nestedType_named_not_found_witness :
    searchType emptyWorld "models" "User" = none ∧
    nestedType emptyWorld (.TName "User") "models" ["name"] = some (.TName "User") :=
  ⟨rfl, nestedType_named_not_found emptyWorld "User" "models" ["name"] (by simp) rfl⟩

theorem find_first_field {τ : Type} (seg : String) (f : StructField τ) :
    ∀ (before after : List (StructField τ)),
      (∀ g ∈ before, g.Name ≠ seg) → f.Name = seg →
      (before ++ f :: after).find? (fun field => field.Name == seg) = some f
  | [], after, _, hf => by simp [hf]
  | g :: before, after, hb, hf => by
    have hg : g.Name ≠ seg := hb g (List.mem_cons_self g before)
    have ih := find_first_field seg f before after
      (fun x hx => hb x (List.mem_cons_of_mem g hx)) hf
    have hn : (g.Name == seg) = false := by simpa using hg
    rw [List.cons_append, List.find?_cons]
    simp only [hn]
    exact ih

/-- C7: for a non-empty path, when `f` is the first field of the record `s`
whose name is the first segment, `nestedType` continues on the type of `f` with
the path without its first segment. -/
theorem nestedType_struct_field (W : World) (s : Struct GoType) (pkg : String)
    (path : List String) (hp : path ≠ [])
    (before after : List (StructField GoType)) (f : StructField GoType)
    (hs : s.Fields = before ++ f :: after)
    (hb : ∀ g ∈ before, g.Name ≠ path.head hp)
    (hf : f.Name = path.head hp) :
    nestedType W (.Struct s) pkg path = nestedType W f.type pkg path.tail := by
  cases path with
  | nil => exact absurd rfl hp
  | cons seg rest =>
    simp only [List.head_cons] at hb hf
    rw [nestedType, hs, find_first_field seg f before after hb hf]
    rfl

/-- Witness of C7: the field `name` of the record `User`. -/
theorem nestedType_struct_field_witness :
    nestedType emptyWorld (.Struct userStruct) "models" ["name"]
      = nestedType emptyWorld (.TName "string") "models" [] :=
  nestedType_struct_field emptyWorld userStruct "models" ["name"] (by simp)
    [] [] ⟨"name", .TName "string", []⟩ rfl (by simp) rfl

/-- C8: on an array or slice, a map, an interface or an ellipsis type,
`nestedType` returns the type itself for every package and every path. -/
theorem nestedType_composite (W : World) (pkg : String) (path : List String) :
    (∀ (n : Nat) (sl : Bool) (next : GoType),
      nestedType W (.TArray n sl next) pkg path = some (.TArray n sl next)) ∧
    (∀ key value : GoType,
      nestedType W (.TMap key value) pkg path = some (.TMap key value)) ∧
    (∀ iface : Interface GoType,
      nestedType W (.TInterface iface) pkg path = some (.TInterface iface)) ∧
    (∀ next : GoType,
      nestedType W (.TEllipsis next) pkg path = some (.TEllipsis next)) := by
  cases path with
  | nil => exact ⟨fun _ _ _ => nestedType_nil .., fun _ _ => nestedType_nil ..,
      fun _ => nestedType_nil .., fun _ => nestedType_nil ..⟩
  | cons seg rest =>
    refine ⟨?_, ?_, ?_, ?_⟩ <;> intros <;> rw [nestedType]

theorem walkFiles_parse_failure (name fileName : String) (after : List Visit)
    (hgo : hasSuffix fileName ".go" = true) :
    ∀ (before : List Visit) (retType : Option GoType),
      walkFiles name (before ++ .file fileName none :: after) retType
        = walkFiles name before retType
  | [], retType => by simp [walkFiles, hgo]
  | .failed :: before, retType => by simp [walkFiles]
  | .dir :: before, retType => by
    simpa [walkFiles] using walkFiles_parse_failure name fileName after hgo before retType
  | .file other parsed :: before, retType => by
    have ih := walkFiles_parse_failure name fileName after hgo before
    simp only [List.cons_append, walkFiles]
    split
    · exact ih retType
    · cases parsed with
      | none => rfl
      | some srcFile =>
        simp only
        cases scanFile name srcFile with
        | none => exact ih retType
        | some found => exact ih (some found)

/-- C9 at the failing input: in `brokenWorld` the only file of `models` fails
to parse.  The wrapped error built for it is lost, `parseType` gives not-found
as it does in `absentWorld`, where the file parses and lacks the name, and
`searchType` goes on to the module copy and returns its declaration, in both
worlds alike. -/
theorem parseType_parse_failure_silent :
    parseType brokenWorld "models" "User" = none ∧
    parseType absentWorld "models" "User" = none ∧
    searchType brokenWorld "models" "User" = some (.Struct userStruct) ∧
    searchType brokenWorld "models" "User" = searchType absentWorld "models" "User" :=
  ⟨rfl, rfl, rfl, rfl⟩

/-- What the code does, in general, with a `.go` file that fails to parse: the
walk ends at that file, the error is lost, and `parseType` returns what the
entries before it gave; when they gave no match the outcome is not-found and
`searchType` goes on to the remaining fallback steps. -/
theorem parseType_parse_failure (W : World) (relPath name fileName : String)
    (before after : List Visit)
    (hw : W.walk relPath = before ++ .file fileName none :: after)
    (hgo : hasSuffix fileName ".go" = true) :
    parseType W relPath name = walkFiles name before none ∧
    (walkFiles name before none = none →
      parseType W relPath name = none ∧
      searchType W relPath name =
        (parseType W (W.PkgModPath relPath) name <|>
         parseType W (pathJoin ["./vendor", relPath]) name <|>
         parseType W (trimLocalPkg W relPath) name)) := by
  have h : parseType W relPath name = walkFiles name before none := by
    unfold parseType
    rw [hw]
    exact walkFiles_parse_failure name fileName after hgo before none
  refine ⟨h, fun hn => ⟨h.trans hn, ?_⟩⟩
  unfold searchType
  rw [h.trans hn]
  cases parseType W (W.PkgModPath relPath) name <;>
  cases parseType W (pathJoin ["./vendor", relPath]) name <;> simp

/-- The general statement on a lost parse failure, at the file of `models` in
`brokenWorld`. -/
theorem parseType_parse_failure_witness :
    parseType brokenWorld "models" "User" = walkFiles "User" [.dir] none ∧
    (walkFiles "User" [.dir] none = none →
      parseType brokenWorld "models" "User" = none ∧
      searchType brokenWorld "models" "User" =
        (parseType brokenWorld (brokenWorld.PkgModPath "models") "User" <|>
         parseType brokenWorld (pathJoin ["./vendor", "models"]) "User" <|>
         parseType brokenWorld (trimLocalPkg brokenWorld "models") "User")) :=
  parseType_parse_failure brokenWorld "models" "User" "user.go" [.dir] [] rfl rfl

/-- C10 at the failing input: in `nestedWorld` the first file in walk order
that declares `User` is `models/user.go`, and `parseType` returns the
declaration of the later file `models/v2/user.go`. -/
theorem parseType_later_file_wins :
    scanFile "User" userFile = some (.Struct userStruct) ∧
    scanFile "User" userIdFile = some (.Struct userStructId) ∧
    parseType nestedWorld "models" "User" = some (.Struct userStructId) ∧
    parseType nestedWorld "models" "User" ≠ some (.Struct userStruct) := by
  refine ⟨rfl, rfl, rfl, ?_⟩
  have h : parseType nestedWorld "models" "User" = some (.Struct userStructId) := rfl
  rw [h]
  simp [userStruct, userStructId]

theorem TypeName_stripWrappers : ∀ t : GoType, TypeName (stripWrappers t) = TypeName t
  | .TArray _ _ next => by simp [stripWrappers, TypeName, TypeName_stripWrappers next]
  | .TPointer _ next => by simp [stripWrappers, TypeName, TypeName_stripWrappers next]
  | .TEllipsis next => by simp [stripWrappers, TypeName, TypeName_stripWrappers next]
  | .TImport _ _ => by simp [stripWrappers]
  | .TName _ => by simp [stripWrappers]
  | .Struct _ => by simp [stripWrappers]
  | .TMap _ _ => by simp [stripWrappers]
  | .TInterface _ => by simp [stripWrappers]

theorem TypeImport_stripWrappers : ∀ t : GoType, TypeImport (stripWrappers t) = TypeImport t
  | .TArray _ _ next => by simp [stripWrappers, TypeImport, TypeImport_stripWrappers next]
  | .TPointer _ next => by simp [stripWrappers, TypeImport, TypeImport_stripWrappers next]
  | .TEllipsis next => by simp [stripWrappers, TypeImport, TypeImport_stripWrappers next]
  | .TImport _ _ => by simp [stripWrappers]
  | .TName _ => by simp [stripWrappers]
  | .Struct _ => by simp [stripWrappers]
  | .TMap _ _ => by simp [stripWrappers]
  | .TInterface _ => by simp [stripWrappers]

/-- After `stripWrappers` a type is an import, a name, a record, a map or an
interface. -/
theorem stripWrappers_cases : ∀ t : GoType,
    (∃ imp next, stripWrappers t = .TImport imp next) ∨
    (∃ typeName, stripWrappers t = .TName typeName) ∨
    TypeName (stripWrappers t) = none
  | .TArray _ _ next => by simpa [stripWrappers] using stripWrappers_cases next
  | .TPointer _ next => by simpa [stripWrappers] using stripWrappers_cases next
  | .TEllipsis next => by simpa [stripWrappers] using stripWrappers_cases next
  | .TImport imp next => Or.inl ⟨imp, next, by simp [stripWrappers]⟩
  | .TName typeName => Or.inr (Or.inl ⟨typeName, by simp [stripWrappers]⟩)
  | .Struct _ => Or.inr (Or.inr (by simp [stripWrappers, TypeName]))
  | .TMap _ _ => Or.inr (Or.inr (by simp [stripWrappers, TypeName]))
  | .TInterface _ => Or.inr (Or.inr (by simp [stripWrappers, TypeName]))

/-- C11, counterexample: `isContextFirst` is true when the first argument is
a pointer to, a slice of or a variadic of `context.Context`. -/
theorem isContextFirst_wrapped :
    isContextFirst [⟨"ctx", .TPointer 1 contextType⟩, ⟨"id", .TName "int"⟩] = true ∧
    isContextFirst [⟨"ctxs", .TArray 0 true contextType⟩] = true ∧
    isContextFirst [⟨"ctxs", .TEllipsis contextType⟩] = true :=
  ⟨rfl, rfl, rfl⟩

theorem isContextFirst_cons_iff (first : Variable GoType) (rest : List (Variable GoType)) :
    isContextFirst (first :: rest) = true ↔
      ∃ imp next,
        stripWrappers first.type = .TImport imp next ∧
        imp.Package = "context" ∧
        TypeName next = some "Context" := by
  simp only [isContextFirst]
  rw [← TypeName_stripWrappers first.type, ← TypeImport_stripWrappers first.type]
  rcases stripWrappers_cases first.type with ⟨imp, next, h⟩ | ⟨typeName, h⟩ | h
  · rw [h]
    simp only [TypeName, TypeImport, packageContext, GoType.TImport.injEq]
    cases hname : TypeName next with
    | none => simp [hname]
    | some name =>
      simp only [Bool.and_eq_true, beq_iff_eq, Option.some.injEq]
      constructor
      · rintro ⟨hp, hc⟩
        exact ⟨imp, next, ⟨rfl, rfl⟩, hp, hname.trans (by rw [hc])⟩
      · rintro ⟨i, n, ⟨h1, h2⟩, hp, hc⟩
        subst h1 h2
        rw [hname] at hc
        exact ⟨hp, by simpa using hc⟩
  · rw [h]
    simp [TypeName, TypeImport]
  · rw [h]
    constructor
    · intro hf; exact absurd hf (by simp)
    · rintro ⟨i, n, hs, _, hc⟩
      rw [hs] at h
      simp only [TypeName] at h
      rw [h] at hc
      exact absurd hc (by simp)

/-- C11, amended: `isContextFirst` is true exactly when the list is non-empty
and the type of its first argument, with its leading pointer, array or slice
and ellipsis wrappers taken off, is an import of the package `context` around
a type of name `Context`. -/
theorem isContextFirst_iff (fields : List (Variable GoType)) :
    isContextFirst fields = true ↔
      ∃ first rest imp next,
        fields = first :: rest ∧
        stripWrappers first.type = .TImport imp next ∧
        imp.Package = "context" ∧
        TypeName next = some "Context" := by
  cases fields with
  | nil => simp [isContextFirst]
  | cons first rest =>
    rw [isContextFirst_cons_iff]
    constructor
    · rintro ⟨imp, next, h⟩
      exact ⟨first, rest, imp, next, rfl, h⟩
    · rintro ⟨f, r, imp, next, hf, h⟩
      simp only [List.cons.injEq] at hf
      obtain ⟨h1, _⟩ := hf
      subst h1
      exact ⟨imp, next, h⟩

/-- C12, counterexample: `isErrorLast` is true when the last result is a slice
of or a pointer to `error`. -/
theorem isErrorLast_wrapped :
    isErrorLast [⟨"n", .TName "int"⟩, ⟨"errs", .TArray 0 true errorType⟩] = true ∧
    isErrorLast [⟨"err", .TPointer 1 errorType⟩] = true :=
  ⟨rfl, rfl⟩

theorem isErrorLast_type_iff (t : GoType) :
    (match TypeName t with
      | none => false
      | some name => (TypeImport t).isNone && name == "error") = true ↔
    stripWrappers t = .TName "error" := by
  rw [← TypeName_stripWrappers t, ← TypeImport_stripWrappers t]
  rcases stripWrappers_cases t with ⟨imp, next, h⟩ | ⟨typeName, h⟩ | h
  · rw [h]
    simp only [TypeName, TypeImport]
    cases TypeName next <;> simp
  · rw [h]
    simp [TypeName, TypeImport]
  · rw [h]
    constructor
    · intro hf; exact absurd hf (by simp)
    · intro hs
      rw [hs] at h
      simp [TypeName] at h

/-- C12, amended: `isErrorLast` is true exactly when the list is non-empty and
the type of its last result, with its leading pointer, array or slice and
ellipsis wrappers taken off, is the name `error` without an import. -/
theorem isErrorLast_iff (fields : List (Variable GoType)) :
    isErrorLast fields = true ↔
      ∃ last, fields.getLast? = some last ∧ stripWrappers last.type = .TName "error" := by
  unfold isErrorLast
  cases fields.getLast? with
  | none => simp
  | some last =>
    simp only [Option.some.injEq, exists_eq_left']
    exact isErrorLast_type_iff last.type

theorem foldl_append_filter {α : Type} (p : α → Bool) :
    ∀ (xs acc : List α),
      xs.foldl (fun result x => if p x then result ++ [x] else result) acc
        = acc ++ xs.filter p
  | [], acc => by simp
  | x :: xs, acc => by
    rw [List.foldl_cons, foldl_append_filter p xs]
    cases hp : p x <;> simp [List.filter, hp]

theorem skipLoop_eq (name : String) :
    ∀ skipFields : List String,
      skipLoop name skipFields = decide (∀ skip ∈ skipFields, trimSpace skip ≠ name)
  | [] => by simp [skipLoop]
  | skip :: rest => by
    by_cases h : trimSpace skip = name
    · simp [skipLoop, h]
    · simp [skipLoop, h, skipLoop_eq name rest]

/-- C17: `removeSkippedFields` returns the fields, in their order and with
their multiplicity, whose name equals no skip entry after the entry is trimmed
of surrounding white space; it is idempotent; and with an empty skip list it
returns every field. -/
theorem removeSkippedFields_filter {τ : Type} (fields : List (Variable τ))
    (skipFields : List String) :
    removeSkippedFields fields skipFields
      = fields.filter (fun field => decide (∀ skip ∈ skipFields, trimSpace skip ≠ field.Name)) ∧
    removeSkippedFields (removeSkippedFields fields skipFields) skipFields
      = removeSkippedFields fields skipFields ∧
    removeSkippedFields fields [] = fields := by
  have key : ∀ (fs : List (Variable τ)) (sk : List String),
      removeSkippedFields fs sk
        = fs.filter (fun field => decide (∀ skip ∈ sk, trimSpace skip ≠ field.Name)) := by
    intro fs sk
    unfold removeSkippedFields
    rw [foldl_append_filter (fun field : Variable τ => skipLoop field.Name sk) fs []]
    simp only [List.nil_append]
    congr 1
    funext field
    exact skipLoop_eq field.Name sk
  refine ⟨key fields skipFields, ?_, ?_⟩
  · rw [key (removeSkippedFields fields skipFields), key fields skipFields, List.filter_filter]
    simp
  · rw [key]
    simp

theorem splitChars_ne_nil (sep : Char) : ∀ cs : List Char, splitChars sep cs ≠ []
  | [] => by simp [splitChars]
  | c :: cs => by
    unfold splitChars
    split
    · simp
    · split <;> simp

theorem splitChars_no_sep (sep : Char) :
    ∀ cs : List Char, sep ∉ cs → splitChars sep cs = [cs]
  | [], _ => by simp [splitChars]
  | c :: cs, h => by
    have hc : c ≠ sep := fun e => h (by simp [e])
    have hcs : sep ∉ cs := fun m => h (List.mem_cons_of_mem c m)
    simp [splitChars, hc, splitChars_no_sep sep cs hcs]

theorem splitChars_append_sep (sep : Char) (b : List Char) :
    ∀ a : List Char,
      splitChars sep (a ++ sep :: b) = splitChars sep a ++ splitChars sep b
  | [] => by simp [splitChars]
  | c :: cs => by
    have ih := splitChars_append_sep sep b cs
    by_cases hc : c = sep
    · simp [splitChars, hc, ih]
    · simp only [List.cons_append, splitChars, hc, if_false]
      have ih2 : splitChars sep (cs.append (sep :: b))
          = splitChars sep cs ++ splitChars sep b := ih
      rw [ih2]
      cases hs : splitChars sep cs with
      | nil => exact absurd hs (splitChars_ne_nil sep cs)
      | cons seg segs => simp

theorem mem_splitChars_no_sep (sep : Char) :
    ∀ (cs seg : List Char), seg ∈ splitChars sep cs → sep ∉ seg
  | [], seg, h => by
    simp [splitChars] at h
    simp [h]
  | c :: cs, seg, h => by
    have ih := mem_splitChars_no_sep sep cs
    by_cases hc : c = sep
    · simp only [splitChars, hc, if_true, List.mem_cons] at h
      rcases h with h | h
      · simp [h]
      · exact ih seg h
    · simp only [splitChars, hc, if_false] at h
      cases hs : splitChars sep cs with
      | nil => exact absurd hs (splitChars_ne_nil sep cs)
      | cons s0 ss =>
        rw [hs] at h ih
        simp only [List.mem_cons] at h
        rcases h with h | h
        · subst h
          have h0 : sep ∉ s0 := ih s0 (List.mem_cons_self s0 ss)
          intro hm
          rcases List.mem_cons.mp hm with e | m
          · exact hc e.symm
          · exact h0 m
        · exact ih seg (List.mem_cons_of_mem s0 h)

theorem splitChars_joinChars (sep : Char) :
    ∀ segs : List (List Char), segs ≠ [] → (∀ seg ∈ segs, sep ∉ seg) →
      splitChars sep (joinChars [sep] segs) = segs
  | [], h, _ => absurd rfl h
  | [x], _, hx => by
    simpa [joinChars] using splitChars_no_sep sep x (hx x (by simp))
  | x :: y :: rest, _, hx => by
    have ih := splitChars_joinChars sep (y :: rest) (by simp)
      (fun seg hm => hx seg (List.mem_cons_of_mem x hm))
    have h := splitChars_append_sep sep (joinChars [sep] (y :: rest)) x
    simp only [joinChars, List.append_assoc, List.singleton_append]
    rw [h, ih, splitChars_no_sep sep x (hx x (by simp))]
    rfl
theorem foldl_cleanStep_ordinary (rooted : Bool) :
    ∀ (segs stack : List (List Char)),
      (∀ seg ∈ segs, seg ≠ [] ∧ seg ≠ ['.'] ∧ seg ≠ ['.', '.']) →
      segs.foldl (cleanStep rooted) stack = segs.reverse ++ stack
  | [], stack, _ => by simp
  | seg :: segs, stack, h => by
    obtain ⟨h1, h2, h3⟩ := h seg (List.mem_cons_self seg segs)
    have hstep : cleanStep rooted stack seg = seg :: stack := by
      simp [cleanStep, h1, h2, h3]
    rw [List.foldl_cons, hstep,
      foldl_cleanStep_ordinary rooted segs (seg :: stack)
        (fun s hs => h s (List.mem_cons_of_mem seg hs))]
    simp

theorem joinChars_cons_head (sep : List Char) (c : Char) (cs : List Char) :
    ∀ rest : List (List Char), ∃ tail, joinChars sep ((c :: cs) :: rest) = c :: tail
  | [] => ⟨cs, by simp [joinChars]⟩
  | y :: rest => ⟨cs ++ sep ++ joinChars sep (y :: rest), by simp [joinChars]⟩

/-- Go `path.Clean` leaves a slash-separated path of ordinary elements (not
empty, not `.`, not `..`) as it is. -/
theorem cleanChars_joinChars (segs : List (List Char)) (hne : segs ≠ [])
    (hord : ∀ seg ∈ segs, seg ≠ [] ∧ seg ≠ ['.'] ∧ seg ≠ ['.', '.'])
    (hsep : ∀ seg ∈ segs, '/' ∉ seg) :
    cleanChars (joinChars ['/'] segs) = joinChars ['/'] segs := by
  cases segs with
  | nil => exact absurd rfl hne
  | cons first rest =>
    cases first with
    | nil => exact absurd rfl (hord [] (List.mem_cons_self _ _)).1
    | cons c cs =>
      have hc : c ≠ '/' := fun e => hsep (c :: cs) (List.mem_cons_self _ _) (by simp [e])
      obtain ⟨tail, ht⟩ := joinChars_cons_head ['/'] c cs rest
      have hsplit := splitChars_joinChars '/' ((c :: cs) :: rest) (by simp) hsep
      unfold cleanChars
      rw [hsplit]
      simp only [foldl_cleanStep_ordinary _ ((c :: cs) :: rest) [] hord, List.append_nil,
        List.reverse_reverse]
      rw [ht]
      simp [hc]

theorem pathJoin_strJoin_ordinary (rest : List String)
    (hord : ∀ seg ∈ rest, seg ≠ "" ∧ seg ≠ "." ∧ seg ≠ "..")
    (hsep : ∀ seg ∈ rest, '/' ∉ seg.data) :
    pathJoin [strJoin rest "/"] = strJoin rest "/" := by
  have hd : ("/" : String).data = ['/'] := rfl
  cases rest with
  | nil => rfl
  | cons first more =>
    have hord2 : ∀ seg ∈ (first :: more).map String.data,
        seg ≠ [] ∧ seg ≠ ['.'] ∧ seg ≠ ['.', '.'] := by
      intro seg hm
      obtain ⟨s, hs, rfl⟩ := List.mem_map.mp hm
      obtain ⟨h1, h2, h3⟩ := hord s hs
      refine ⟨fun e => h1 ?_, fun e => h2 ?_, fun e => h3 ?_⟩
      · exact String.ext e
      · exact String.ext e
      · exact String.ext e
    have hsep2 : ∀ seg ∈ (first :: more).map String.data, '/' ∉ seg := by
      intro seg hm
      obtain ⟨s, hs, rfl⟩ := List.mem_map.mp hm
      exact hsep s hs
    have hclean := cleanChars_joinChars ((first :: more).map String.data) (by simp) hord2 hsep2
    have hfirst : first.data ≠ [] := (hord2 first.data (by simp)).1
    obtain ⟨c, cs, hcs⟩ : ∃ c cs, first.data = c :: cs := by
      cases hfd : first.data with
      | nil => exact absurd hfd hfirst
      | cons c cs => exact ⟨c, cs, rfl⟩
    obtain ⟨tail, ht⟩ := joinChars_cons_head ['/'] c cs (more.map String.data)
    have hj : joinChars ['/'] ((first :: more).map String.data) = c :: tail := by
      simpa [hcs] using ht
    unfold pathJoin strJoin
    simp only [hd, List.map_cons, List.map_nil]
    rw [hj] at hclean
    simp only [List.map_cons] at hj
    rw [hj]
    simp [joinChars, hclean]
/-- C15, counterexample: with the module root `github.com/acme/app`, the
package path `github.com/other/lib/models` does not begin with the module
root, and `trimLocalPkg` still drops its first three segments. -/
theorem trimLocalPkg_foreign_prefix :
    getModName moduleWorld = "github.com/acme/app" ∧
    trimLocalPkg moduleWorld "github.com/other/lib/models" = "models" ∧
    trimLocalPkg moduleWorld "github.com/other/lib/models" ≠ "github.com/other/lib/models" := by
  decide

/-- C15, amended: `trimLocalPkg` drops as many leading segments as the module
root has, without comparing them.  It returns `pkg` unchanged when `go.mod`
gives no module name or `pkg` has fewer segments than the module root;
otherwise it returns `path.Join` of the remaining segments joined by a slash,
and for a `pkg` that begins with the segments of the module root, followed by
ordinary path elements, that is the remaining segments joined by a slash. -/
theorem trimLocalPkg_drops_segments (W : World) (pkg : String) :
    (getModName W = "" → trimLocalPkg W pkg = pkg) ∧
    ((strSplit pkg '/').length < (strSplit (getModName W) '/').length →
      trimLocalPkg W pkg = pkg) ∧
    (getModName W ≠ "" →
      (strSplit (getModName W) '/').length ≤ (strSplit pkg '/').length →
      trimLocalPkg W pkg =
        pathJoin [strJoin ((strSplit pkg '/').drop (strSplit (getModName W) '/').length) "/"]) ∧
    (∀ rest : List String,
      getModName W ≠ "" →
      strSplit pkg '/' = strSplit (getModName W) '/' ++ rest →
      (∀ seg ∈ rest, seg ≠ "" ∧ seg ≠ "." ∧ seg ≠ "..") →
      trimLocalPkg W pkg = strJoin rest "/") := by
  refine ⟨?_, ?_, ?_, ?_⟩
  · intro h
    simp [trimLocalPkg, h]
  · intro h
    simp [trimLocalPkg, h]
  · intro hm hlen
    unfold trimLocalPkg
    simp only
    rw [if_neg hm, if_neg (Nat.not_lt.mpr hlen)]
  · intro rest hm hsplit hord
    have hsep : ∀ seg ∈ rest, '/' ∉ seg.data := by
      intro seg hs
      have hmem : seg ∈ strSplit pkg '/' := by
        rw [hsplit]
        exact List.mem_append_right _ hs
      unfold strSplit at hmem
      obtain ⟨cs, hcs, rfl⟩ := List.mem_map.mp hmem
      exact mem_splitChars_no_sep '/' pkg.data cs hcs
    have hlen : ¬ (strSplit pkg '/').length < (strSplit (getModName W) '/').length := by
      rw [hsplit, List.length_append]
      omega
    unfold trimLocalPkg
    simp only
    rw [if_neg hm, if_neg hlen, hsplit, List.drop_left]
    exact pathJoin_strJoin_ordinary rest hord hsep

/-- Witness of the amended C15: `github.com/acme/app/pkg/models` under the
module root `github.com/acme/app`. -/
theorem trimLocalPkg_drops_segments_witness :
    trimLocalPkg moduleWorld "github.com/acme/app/pkg/models" = strJoin ["pkg", "models"] "/" ∧
    strJoin ["pkg", "models"] "/" = "pkg/models" :=
  ⟨(trimLocalPkg_drops_segments moduleWorld "github.com/acme/app/pkg/models").2.2.2
      ["pkg", "models"] (by decide) (by decide) (by decide),
   by decide⟩

/-- C13: in `fillErrors`, a tag whose trimmed key parses to a known status
code and whose trimmed value is `skip`, and a tag whose trimmed key is neither
a known status code nor `defaultError`, leave the responses table as it is;
the whole loop gives the same table with and without such a tag. -/
theorem fillErrorsTag_frame {Schema : Type} (env : ErrorEnv Schema)
    (responses : StrMap (SwResponse Schema)) (key value : String)
    (h : (env.statusText (atoi (trimSpace key)) ≠ none ∧ trimSpace value = "skip") ∨
         (env.statusText (atoi (trimSpace key)) = none ∧ trimSpace key ≠ "defaultError")) :
    fillErrorsTag env responses (key, value) = responses ∧
    ∀ before after : List (String × String),
      fillErrors env responses (before ++ (key, value) :: after)
        = fillErrors env responses (before ++ after) := by
  have step : ∀ r : StrMap (SwResponse Schema), fillErrorsTag env r (key, value) = r := by
    intro r
    unfold fillErrorsTag
    rcases h with ⟨hk, hv⟩ | ⟨hk, hd⟩
    · cases hs : env.statusText (atoi (trimSpace key)) with
      | none => exact absurd hs hk
      | some text => simp [hv, hs]
    · simp [hk, hd]
  refine ⟨step responses, fun before after => ?_⟩
  unfold fillErrors
  rw [List.foldl_append, List.foldl_append, List.foldl_cons, step]

/-- Witness of C13: the tag `404` with the value `skip` and the tag
`summary`, on an empty responses table. -/
theorem fillErrorsTag_frame_witness :
    fillErrorsTag errorEnv StrMap.empty ("404", " skip ") = StrMap.empty ∧
    fillErrorsTag errorEnv StrMap.empty ("summary", "List users") = StrMap.empty :=
  ⟨(fillErrorsTag_frame errorEnv StrMap.empty "404" " skip "
      (Or.inl ⟨by decide, by decide⟩)).1,
   (fillErrorsTag_frame errorEnv StrMap.empty "summary" "List users"
      (Or.inr ⟨by decide, by decide⟩)).1⟩

theorem StrMap.set_same {β : Type} (m : StrMap β) (k : String) (v : β) :
    m.set k v k = some v := by
  simp [StrMap.set]

theorem StrMap.set_isSome {β : Type} (m : StrMap β) (k x : String) (v : β)
    (h : (m x).isSome = true) : (m.set k v x).isSome = true := by
  unfold StrMap.set
  split
  · rfl
  · exact h

/-- The method loop body of `render` never removes a key of the paths
table. -/
theorem renderMethod_keeps_keys {Op : Type} (doc : SwaggerDoc Op) (service : Service)
    (paths next : StrMap (SwPath Op)) (method : Method)
    (h : renderMethod doc service paths method = some next)
    (key : String) (hk : (paths key).isSome = true) : (next key).isSome = true := by
  unfold renderMethod at h
  split at h
  · simp only [Option.some.injEq] at h
    subst h
    exact StrMap.set_isSome _ _ _ _ hk
  · split at h
    · simp only at h
      split at h
      · simp only [Option.some.injEq] at h
        subst h
        apply StrMap.set_isSome
        split
        · exact StrMap.set_isSome _ _ _ _ hk
        · exact hk
      · exact absurd h (by simp)
    · simp only [Option.some.injEq] at h
      subst h
      exact hk

/-- The method loop body of `render` on a method that passes one of the two
gates: the table then holds an entry with the operation of the method. -/
theorem renderMethod_gates {Op : Type} (doc : SwaggerDoc Op) (service : Service)
    (paths : StrMap (SwPath Op)) (method : Method) :
    (service.tagServerJsonRPC = true → method.tagMethodHTTP = false →
      ∃ next entry, renderMethod doc service paths method = some next ∧
        next method.jsonrpcPath = some entry ∧
        entry "Post" = some (doc.postOperation service method)) ∧
    (service.tagServerHTTP = true → method.tagMethodHTTP = true →
      doc.verbField method.httpMethod ∈ doc.swPathFields →
      ∃ next entry, renderMethod doc service paths method = some next ∧
        next method.httpPath = some entry ∧
        entry (doc.verbField method.httpMethod)
          = some (doc.httpOperation service method)) ∧
    ((service.tagServerJsonRPC = false ∨ method.tagMethodHTTP = true) →
      (service.tagServerHTTP = false ∨ method.tagMethodHTTP = false) →
      renderMethod doc service paths method = some paths) := by
  refine ⟨?_, ?_, ?_⟩
  · intro hs hm
    have hr : renderMethod doc service paths method
        = some (paths.set method.jsonrpcPath
            ((StrMap.empty : SwPath Op).set "Post" (doc.postOperation service method))) := by
      simp [renderMethod, hs, hm]
    exact ⟨_, _, hr, StrMap.set_same _ _ _, StrMap.set_same _ _ _⟩
  · intro hs hm hv
    have hr : renderMethod doc service paths method
        = some ((if (paths method.jsonrpcPath).isNone then
              paths.set method.httpPath StrMap.empty else paths).set method.httpPath
            (StrMap.set ((paths method.jsonrpcPath).getD StrMap.empty)
              (doc.verbField method.httpMethod) (doc.httpOperation service method))) := by
      simp [renderMethod, hs, hm, hv]
    exact ⟨_, _, hr, StrMap.set_same _ _ _, StrMap.set_same _ _ _⟩
  · intro h1 h2
    unfold renderMethod
    rcases h1 with h1 | h1 <;> rcases h2 with h2 | h2
    · simp [h1, h2]
    · simp [h1, h2]
    · simp [h1, h2]
    · rw [h1] at h2
      cases h2

theorem renderMethods_keeps_keys {Op : Type} (doc : SwaggerDoc Op) (service : Service) :
    ∀ (methods : List Method) (paths final : StrMap (SwPath Op)),
      renderMethods doc service methods paths = some final →
      ∀ key, (paths key).isSome = true → (final key).isSome = true
  | [], paths, final, h, key, hk => by
    simp only [renderMethods, Option.some.injEq] at h
    subst h
    exact hk
  | method :: rest, paths, final, h, key, hk => by
    unfold renderMethods at h
    cases hm : renderMethod doc service paths method with
    | none => rw [hm] at h; exact absurd h (by simp)
    | some next =>
      rw [hm] at h
      exact renderMethods_keeps_keys doc service rest next final h key
        (renderMethod_keeps_keys doc service paths next method hm key hk)

theorem renderServices_keeps_keys {Op : Type} (doc : SwaggerDoc Op) :
    ∀ (services : List Service) (paths final : StrMap (SwPath Op)),
      renderServices doc services paths = some final →
      ∀ key, (paths key).isSome = true → (final key).isSome = true
  | [], paths, final, h, key, hk => by
    simp only [renderServices, Option.some.injEq] at h
    subst h
    exact hk
  | service :: rest, paths, final, h, key, hk => by
    unfold renderServices at h
    cases hm : renderMethods doc service service.methods paths with
    | none => rw [hm] at h; exact absurd h (by simp)
    | some next =>
      rw [hm] at h
      exact renderServices_keeps_keys doc rest next final h key
        (renderMethods_keeps_keys doc service service.methods paths next hm key hk)

theorem renderMethod_sets_key {Op : Type} (doc : SwaggerDoc Op) (service : Service)
    (paths next : StrMap (SwPath Op)) (method : Method)
    (h : renderMethod doc service paths method = some next) :
    (service.tagServerJsonRPC = true → method.tagMethodHTTP = false →
      (next method.jsonrpcPath).isSome = true) ∧
    (service.tagServerHTTP = true → method.tagMethodHTTP = true →
      (next method.httpPath).isSome = true) := by
  constructor
  · intro hs hm
    obtain ⟨n, e, hn, he, _⟩ := (renderMethod_gates doc service paths method).1 hs hm
    rw [h] at hn
    simp only [Option.some.injEq] at hn
    subst hn
    rw [he]
    rfl
  · intro hs hm
    by_cases hv : doc.verbField method.httpMethod ∈ doc.swPathFields
    · obtain ⟨n, e, hn, he, _⟩ := (renderMethod_gates doc service paths method).2.1 hs hm hv
      rw [h] at hn
      simp only [Option.some.injEq] at hn
      subst hn
      rw [he]
      rfl
    · have hnone : renderMethod doc service paths method = none := by
        simp [renderMethod, hs, hm, hv]
      rw [hnone] at h
      exact absurd h (by simp)

theorem renderMethods_sets_keys {Op : Type} (doc : SwaggerDoc Op) (service : Service) :
    ∀ (methods : List Method) (paths final : StrMap (SwPath Op)),
      renderMethods doc service methods paths = some final →
      ∀ method ∈ methods,
        (service.tagServerJsonRPC = true → method.tagMethodHTTP = false →
          (final method.jsonrpcPath).isSome = true) ∧
        (service.tagServerHTTP = true → method.tagMethodHTTP = true →
          (final method.httpPath).isSome = true)
  | [], _, _, _, method, hmem => absurd hmem (List.not_mem_nil method)
  | first :: rest, paths, final, h, method, hmem => by
    unfold renderMethods at h
    cases hm : renderMethod doc service paths first with
    | none => rw [hm] at h; exact absurd h (by simp)
    | some next =>
      rw [hm] at h
      rcases List.mem_cons.mp hmem with heq | hrest
      · subst heq
        have hset := renderMethod_sets_key doc service paths next method hm
        have hkeep := renderMethods_keeps_keys doc service rest next final h
        exact ⟨fun a b => hkeep _ (hset.1 a b), fun a b => hkeep _ (hset.2 a b)⟩
      · exact renderMethods_sets_keys doc service rest next final h method hrest

theorem renderServices_sets_keys {Op : Type} (doc : SwaggerDoc Op) :
    ∀ (services : List Service) (paths final : StrMap (SwPath Op)),
      renderServices doc services paths = some final →
      ∀ service ∈ services, ∀ method ∈ service.methods,
        (service.tagServerJsonRPC = true → method.tagMethodHTTP = false →
          (final method.jsonrpcPath).isSome = true) ∧
        (service.tagServerHTTP = true → method.tagMethodHTTP = true →
          (final method.httpPath).isSome = true)
  | [], _, _, _, service, hmem => absurd hmem (List.not_mem_nil service)
  | first :: rest, paths, final, h, service, hmem => by
    unfold renderServices at h
    cases hm : renderMethods doc first first.methods paths with
    | none => rw [hm] at h; exact absurd h (by simp)
    | some next =>
      rw [hm] at h
      rcases List.mem_cons.mp hmem with heq | hrest
      · subst heq
        intro method hmethod
        have hset := renderMethods_sets_keys doc service service.methods paths next hm
          method hmethod
        have hkeep := renderServices_keeps_keys doc rest next final h
        exact ⟨fun a b => hkeep _ (hset.1 a b), fun a b => hkeep _ (hset.2 a b)⟩
      · exact renderServices_sets_keys doc rest next final h service hrest

/-- C14, counterexample: a service served over HTTP only whose method `Ping`
has no `http-method` tag passes neither gate of `render`, and the paths table
holds no entry for it, neither under its JSON-RPC path nor under its HTTP
path. -/
theorem render_method_without_entry :
    ∃ final, renderPaths (docOf [pingService]) = some final ∧
      final pingMethod.jsonrpcPath = none ∧ final pingMethod.httpPath = none :=
  ⟨StrMap.empty, rfl, rfl, rfl⟩

/-- C14, amended: a method that passes one of the two gates of `render` is
registered.  With `server-jsonrpc` on the service and no `http-method` tag on
the method, the table holds right after it an entry under the JSON-RPC path
with the operation of the method under `Post`; with `server-http` on the
service, the `http-method` tag on the method and a verb that names an
operation field, an entry under the HTTP path with the operation of the method
under that verb.  A method that passes neither gate leaves the table as it is.
Entries are never removed: when `render` ends, the table has an entry under
the path of every method that passed a gate. -/
theorem render_paths_entries {Op : Type} (doc : SwaggerDoc Op) :
    (∀ (service : Service) (method : Method) (paths : StrMap (SwPath Op)),
      (service.tagServerJsonRPC = true → method.tagMethodHTTP = false →
        ∃ next entry, renderMethod doc service paths method = some next ∧
          next method.jsonrpcPath = some entry ∧
          entry "Post" = some (doc.postOperation service method)) ∧
      (service.tagServerHTTP = true → method.tagMethodHTTP = true →
        doc.verbField method.httpMethod ∈ doc.swPathFields →
        ∃ next entry, renderMethod doc service paths method = some next ∧
          next method.httpPath = some entry ∧
          entry (doc.verbField method.httpMethod)
            = some (doc.httpOperation service method)) ∧
      ((service.tagServerJsonRPC = false ∨ method.tagMethodHTTP = true) →
        (service.tagServerHTTP = false ∨ method.tagMethodHTTP = false) →
        renderMethod doc service paths method = some paths)) ∧
    (∀ final : StrMap (SwPath Op), renderPaths doc = some final →
      ∀ service ∈ doc.services, ∀ method ∈ service.methods,
        (service.tagServerJsonRPC = true → method.tagMethodHTTP = false →
          (final method.jsonrpcPath).isSome = true) ∧
        (service.tagServerHTTP = true → method.tagMethodHTTP = true →
          (final method.httpPath).isSome = true)) :=
  ⟨fun service method paths => renderMethod_gates doc service paths method,
   fun final h => renderServices_sets_keys doc doc.services StrMap.empty final h⟩

/-- Witness of the amended C14: in a document with a JSON-RPC service and an
HTTP service, `Ping` is registered under `/users/ping` with `Post`, and the
final table has entries under `/users/ping` and `/users`. -/
theorem render_paths_entries_witness :
    (∃ next entry,
      renderMethod (docOf [rpcService, usersService]) rpcService StrMap.empty pingMethod
        = some next ∧
      next "/users/ping" = some entry ∧ entry "Post" = some "rpc Ping") ∧
    (((renderPaths (docOf [rpcService, usersService])).getD StrMap.empty)
      "/users/ping").isSome = true ∧
    (((renderPaths (docOf [rpcService, usersService])).getD StrMap.empty)
      "/users").isSome = true :=
  ⟨((render_paths_entries (docOf [rpcService, usersService])).1 rpcService pingMethod
      StrMap.empty).1 rfl rfl,
   ((render_paths_entries (docOf [rpcService, usersService])).2
      ((renderPaths (docOf [rpcService, usersService])).getD StrMap.empty) rfl
      rpcService (by simp [docOf]) pingMethod (by simp [rpcService])).1 rfl rfl,
   ((render_paths_entries (docOf [rpcService, usersService])).2
      ((renderPaths (docOf [rpcService, usersService])).getD StrMap.empty) rfl
      usersService (by simp [docOf]) listMethod (by simp [usersService])).2 rfl rfl⟩

/-- C16 at the failing input: `List` (`GET /users`) and `Create`
(`POST /users`) share the HTTP path `/users`, which is none of their JSON-RPC
paths.  After `List` the entry of `/users` holds its operation under `Get`;
after `Create` the entry holds the operation of `Create` under `Post` and
nothing under `Get`. -/
theorem render_second_verb_drops_first :
    ((renderMethod (docOf [usersService]) usersService StrMap.empty listMethod).bind
        (fun paths => paths "/users")).map (fun entry => (entry "Get", entry "Post"))
      = some (some "http List", none) ∧
    ((renderPaths (docOf [usersService])).bind
        (fun paths => paths "/users")).map (fun entry => (entry "Get", entry "Post"))
      = some (none, some "http Create") :=
  ⟨rfl, rfl⟩

end Tg
